import Mathlib

/-!
Verification of the memory-checking verifier of a Lasso-style lookup argument
(crate gkr, files src/circuit/node/lasso/memory_checking/verifier.rs,
src/circuit/node/lasso/table/range.rs, src/poly/terms.rs, src/util.rs).

The base field F and the extension field E of the source are modelled by a
single commutative ring E with decidable equality (the canonical embedding
F -> E is the identity here; none of the verified properties depends on the
distinction).  Fallible Rust code returns Except; Rust panics (assert!,
assert_eq!, out-of-bounds indexing, unwrap) are modelled by the distinguished
error value Err.panicked, which is never produced by a Rust `return Err`.

The transcript is modelled as a read stream plus a challenge stream; every
transcript interaction is appended to an observable event trace, which is what
the ordering properties are stated about.
-/

set_option linter.unusedVariables false
set_option linter.unusedSectionVars false

namespace GkrLasso

/-- Modelled from the spec: the error kind exposed to callers (the enum
crate::Error is not part of the sources; section 7 of the spec lists the
variants TranscriptExhausted, InvalidSumCheck, FingerprintMismatch and
Malformed).  The extra value `panicked` models a Rust panic, which is an
abort, not a returned error. -/
inductive Err where
  | transcriptExhausted
  | invalidSumCheck (reason : String)
  | fingerprintMismatch
  | malformed
  | panicked
deriving DecidableEq, Repr

/-- One observable transcript interaction.  `sumCheckCall n b` marks an
invocation of the external sum-check verifier on the layer polynomial built by
sum_check_function with the given num_vars and num_batching. -/
inductive Event where
  | readFelt
  | readFelts (n : ℕ)
  | readAsExts (n : ℕ)
  | squeeze
  | common
  | sumCheckCall (numVars numBatching : ℕ)
deriving DecidableEq, Repr

/-- Is this event an invocation of the external sum-check verifier? -/
def Event.isSumCheckCall : Event → Bool
  | .sumCheckCall _ _ => true
  | _ => false

/-- The Fiat-Shamir transcript as seen by the verifier: a stream of proof
elements still to be read, a stream of challenges, and the trace of
interactions performed so far. -/
structure Transcript (E : Type) where
  reads : List E
  chal : ℕ → E
  chalIdx : ℕ := 0
  trace : List Event := []

variable {E : Type} [CommRing E] [DecidableEq E]

/-- transcript.read_felt_ext(): pull one extension-field element. -/
def Transcript.readFeltExt (tr : Transcript E) : Except Err (E × Transcript E) :=
  match tr.reads with
  | [] => .error .transcriptExhausted
  | v :: rest =>
    .ok (v, { tr with reads := rest, trace := tr.trace ++ [.readFelt] })

/-- Take the first n elements of the read stream, or fail. -/
def takeReads (n : ℕ) (l : List E) : Except Err (List E × List E) :=
  match n, l with
  | 0, l => .ok ([], l)
  | _ + 1, [] => .error .transcriptExhausted
  | n + 1, v :: rest => do
    let (vs, left) ← takeReads n rest
    .ok (v :: vs, left)

/-- transcript.read_felt_exts(n): pull n extension-field elements. -/
def Transcript.readFeltExts (n : ℕ) (tr : Transcript E) :
    Except Err (List E × Transcript E) := do
  let (vs, left) ← takeReads n tr.reads
  .ok (vs, { tr with reads := left, trace := tr.trace ++ [.readFelts n] })

/-- transcript.read_felts_as_exts(n): pull n base-field elements and embed
them into E (the embedding is the identity in this model). -/
def Transcript.readFeltsAsExts (n : ℕ) (tr : Transcript E) :
    Except Err (List E × Transcript E) := do
  let (vs, left) ← takeReads n tr.reads
  .ok (vs, { tr with reads := left, trace := tr.trace ++ [.readAsExts n] })

/-- transcript.squeeze_challenge(): derive a fresh challenge. -/
def Transcript.squeezeChallenge (tr : Transcript E) : E × Transcript E :=
  (tr.chal tr.chalIdx,
   { tr with chalIdx := tr.chalIdx + 1, trace := tr.trace ++ [.squeeze] })

/-- transcript.common_felts(bases): absorb the base representation of one
pre-known extension element into the transcript state. -/
def Transcript.commonFelts (tr : Transcript E) : Transcript E :=
  { tr with trace := tr.trace ++ [.common] }

/-- Mark an invocation of the external sum-check verifier in the trace. -/
def Transcript.logSumCheck (n b : ℕ) (tr : Transcript E) : Transcript E :=
  { tr with trace := tr.trace ++ [.sumCheckCall n b] }

/-- The observable part of a transcript (everything except the challenge
function, whose equality is not decidable). -/
def Transcript.obs (tr : Transcript E) : List E × ℕ × List Event :=
  (tr.reads, tr.chalIdx, tr.trace)

/-- Lift an indexing or unwrap step that panics on failure. -/
def expect : Option E → Except Err E
  | none => .error .panicked
  | some v => .ok v

/-- util.rs div_ceil. -/
def div_ceil (dividend divisor : ℕ) : ℕ :=
  (dividend + divisor - 1) / divisor

/-- util.rs inner_product: izip_eq (zip_eq) panics when the lengths differ. -/
def inner_product (lhs rhs : List E) : Option E :=
  if lhs.length = rhs.length then
    some (((lhs.zip rhs).map (fun p => p.1 * p.2)).sum)
  else
    none

/-- The list [w^0, w^1, ..., w^(n-1)] built by iter::successors from ONE by
repeated multiplication with w, taken n times. -/
def powerSeq (w : E) (n : ℕ) : List E :=
  (List.range n).map (fun i => w ^ i)

/-- poly/terms.rs PolyExpr. -/
inductive PolyExpr (E : Type) where
  | Const (c : E)
  | Var (i : ℕ)
  | Sum (v : List (PolyExpr E))
  | Prod (v : List (PolyExpr E))
  | Pow (inner : PolyExpr E) (e : ℕ)

mutual

/-- poly/terms.rs PolyExpr::evaluate.  Var(i) indexes x[i] and panics (none)
out of range; Sum and Prod reduce with identities ZERO and ONE. -/
def PolyExpr.evaluate (x : List E) : PolyExpr E → Option E
  | .Const c => some c
  | .Var i => x.get? i
  | .Sum v => (PolyExpr.evaluateList x v).map List.sum
  | .Prod v => (PolyExpr.evaluateList x v).map List.prod
  | .Pow inner e => (PolyExpr.evaluate x inner).map (· ^ e)

/-- Evaluate every child, propagating a panic. -/
def PolyExpr.evaluateList (x : List E) : List (PolyExpr E) → Option (List E)
  | [] => some []
  | p :: ps => do
    let v ← PolyExpr.evaluate x p
    let vs ← PolyExpr.evaluateList x ps
    some (v :: vs)

end

/-- poly/terms.rs MultilinearPolyTerms. -/
structure MultilinearPolyTerms (E : Type) where
  numVars : ℕ
  expression : PolyExpr E

/-- poly/terms.rs MultilinearPolyTerms::evaluate: assert_eq!(x.len(),
self.num_vars) panics on mismatch, then evaluates the expression. -/
def MultilinearPolyTerms.evaluate (t : MultilinearPolyTerms E) (x : List E) :
    Option E :=
  if x.length = t.numVars then t.expression.evaluate x else none

/-- table/range.rs FullLimbSubtable::evaluate_mle.  The source loop is
`for i in 0..b { result += point[b] * F::from(1u64 << i) }` with
b = point.len(); the index is the length b, not i, so the first iteration
already reads out of bounds.  The coefficient 1u64 << i is modelled as 2^i;
it is never reached when the indexing panics, and for an empty point the loop
does not run at all. -/
def FullLimbSubtable.evaluate_mle (point : List E) : Option E :=
  (List.range point.length).foldlM
    (fun result i => (point.get? point.length).map (fun p => result + p * (2 : E) ^ i))
    (0 : E)

/-- table/range.rs ReminderSubtable::evaluate_mle, parameters NUM_BITS = n and
LIMB_SIZE = l.  Same out-of-bounds index point[b] as the full limb; for
i < n % l the accumulator is increased by point[b] * 2^i, otherwise it is
multiplied by (1 - point[b]). -/
def ReminderSubtable.evaluate_mle (n l : ℕ) (point : List E) : Option E :=
  (List.range point.length).foldlM
    (fun result i =>
      if i < n % l then (point.get? point.length).map (fun p => result + p * (2 : E) ^ i)
      else (point.get? point.length).map (fun p => result * (1 - p)))
    (0 : E)

/-- table/range.rs RangeTable::chunk_bits with NUM_BITS = n, LIMB_BITS = l:
LIMB_BITS repeated NUM_BITS / LIMB_BITS times, then the remainder width iff
nonzero. -/
def chunk_bits (n l : ℕ) : List ℕ :=
  List.replicate (n / l) l ++ (if n % l ≠ 0 then [n % l] else [])

/-- table/range.rs RangeTable::num_memories = div_ceil(NUM_BITS, LIMB_BITS). -/
def num_memories (n l : ℕ) : ℕ :=
  div_ceil n l

/-- table/range.rs RangeTable::combine_lookups: inner_product of the operands
with successive powers of weight = F::from(1u64 << LIMB_BITS), taken
operands.len() times.  The u64 shift overflows (panics) when LIMB_BITS is 64
or more. -/
def combine_lookups (l : ℕ) (operands : List E) : Option E :=
  if l < 64 then
    inner_product operands (powerSeq (((1 <<< l : ℕ) : E)) operands.length)
  else
    none

/-- The recomposition of a value from its limbs with weight w, following the
words of the spec: the Horner-style sum of operands_i times w^i. -/
def limbRecompose (w : E) : List E → E
  | [] => 0
  | x :: xs => x + w * limbRecompose w xs

/-- verifier.rs line 159: the fingerprint hash closure
|a, v, t| a + v * gamma + t * gamma^2 - tau. -/
def fingerprintHash (gamma tau a v t : E) : E :=
  a + v * gamma + t * gamma ^ 2 - tau

/-- Modelled from the spec: MemoryCheckingProver::sum_check_claim(v, gamma)
computes the batched claim as the sum of gamma^j times v_j (the prover side is
not part of the sources). -/
def sum_check_claim (v : List E) (gamma : E) : E :=
  (v.enum.map (fun p => gamma ^ p.1 * p.2)).sum

/-- Modelled from the spec: MemoryCheckingProver::layer_down_claim(evals, mu)
pairs the evaluations as (left, right) per lane and folds each pair to
left * (1 - mu) + right * mu. -/
def layer_down_claim (evals : List E) (mu : E) : List E :=
  match evals with
  | l :: r :: rest => (l * (1 - mu) + r * mu) :: layer_down_claim rest mu
  | _ => []

/-- Modelled from the spec: the layer polynomial built by
MemoryCheckingProver::sum_check_function(num_vars, num_batching, gamma); only
its parameters are observable to this verifier. -/
structure SumCheckG (E : Type) where
  numVars : ℕ
  numBatching : ℕ
  gamma : E

/-- One round of the modelled external sum-check verifier: read one round
message and squeeze one challenge; the point is the list of challenges. -/
def scRounds (k : ℕ) (tr : Transcript E) : Except Err (List E × Transcript E) :=
  match k with
  | 0 => .ok ([], tr)
  | k + 1 => do
    let (_msg, tr) ← tr.readFeltExt
    let (c, tr) := tr.squeezeChallenge
    let (rest, tr) ← scRounds k tr
    .ok (c :: rest, tr)

/-- Modelled from the spec: crate::sum_check::verify_sum_check(g, claim,
transcript) is external to the sources; per the spec it yields a final
evaluation together with a point of length g.numVars, driving g.numVars
rounds of transcript interaction.  The invocation itself is recorded in the
trace. -/
def verify_sum_check (g : SumCheckG E) (claim : E) (tr : Transcript E) :
    Except Err (E × List E × Transcript E) := do
  let tr := tr.logSumCheck g.numVars g.numBatching
  let (point, tr) ← scRounds g.numVars tr
  .ok (claim, point, tr)

/-- Round 0 of verify_grand_product: resolve the claimed outputs, absorbing
the supplied ones (common_felts) and reading the missing ones. -/
def resolveClaims (claims : List (Option E)) (tr : Transcript E) :
    Except Err (List E × Transcript E) :=
  match claims with
  | [] => .ok ([], tr)
  | some c :: rest => do
    let tr := tr.commonFelts
    let (cs, tr) ← resolveClaims rest tr
    .ok (c :: cs, tr)
  | none :: rest => do
    let (v, tr) ← tr.readFeltExt
    let (cs, tr) ← resolveClaims rest tr
    .ok (v :: cs, tr)

/-- The terminal product check of verify_grand_product: the claims zipped with
consecutive (left, right) pairs of the evaluations, every claim equal to the
product of its pair (izip stops at the shorter side, tuples drops an unpaired
leftover). -/
def checkProducts (claims evals : List E) : Bool :=
  match claims, evals with
  | c :: cs, l :: r :: es => (decide (c = l * r)) && checkProducts cs es
  | _, _ => true

/-- The body of one iteration of the try_fold of verify_grand_product, up to
the folding challenge.  The loop variable r shadows num_vars in the source:
round index 0 reads 2 * num_batching leaves and checks every claim against
the product of its (left, right) pair, failing with InvalidSumCheck; every
later round r squeezes a batching challenge, runs the external sum-check on
the layer polynomial for num_vars = r with the batched claim, and reads
2 * num_batching leaves. -/
def gpRound (numBatching r : ℕ) (claims : List E) (tr : Transcript E) :
    Except Err (List E × List E × Transcript E) :=
  if r = 0 then do
    let (evals, tr) ← tr.readFeltExts (2 * numBatching)
    if checkProducts claims evals then
      .ok (([] : List E), evals, tr)
    else
      .error (.invalidSumCheck "unmatched sum check output")
  else do
    let (gamma, tr) := tr.squeezeChallenge
    let g : SumCheckG E := ⟨r, numBatching, gamma⟩
    let (_xEval, x, tr) ← verify_sum_check g (sum_check_claim claims gamma) tr
    let (evals, tr) ← tr.readFeltExts (2 * numBatching)
    .ok (x, evals, tr)

/-- The try_fold of verify_grand_product over the round indices 0..num_vars.
Each round runs gpRound, squeezes a folding challenge mu, folds the leaves
down one layer, and replaces the accumulated point by the round point
extended with mu. -/
def gpLoop (numBatching : ℕ) (rounds : List ℕ) (claims point : List E)
    (tr : Transcript E) : Except Err (List E × List E × Transcript E) :=
  match rounds with
  | [] => .ok (claims, point, tr)
  | r :: rest => do
    let (x, evals, tr) ← gpRound numBatching r claims tr
    let (mu, tr) := tr.squeezeChallenge
    gpLoop numBatching rest (layer_down_claim evals mu) (x ++ [mu]) tr

/-- verifier.rs MemoryCheckingVerifier::verify_grand_product.  num_batching is
the length of the claimed outputs; assert!(num_batching != 0) panics when it
is zero; the claims are then resolved and the round loop is run. -/
def verifyGrandProduct (numVars : ℕ) (claimedV0s : List (Option E))
    (tr : Transcript E) : Except Err (List E × List E × Transcript E) :=
  if claimedV0s.length = 0 then .error .panicked
  else do
    let (claims, tr) ← resolveClaims claimedV0s tr
    gpLoop claimedV0s.length (List.range numVars) claims [] tr

/-- verifier.rs Memory. -/
structure Memory (E : Type) where
  memoryIndex : ℕ
  subtablePoly : MultilinearPolyTerms E

/-- verifier.rs Chunk. -/
structure Chunk (E : Type) where
  chunkIndex : ℕ
  chunkBits : ℕ
  memory : List (Memory E)

/-- verifier.rs Chunk::new: a chunk always starts with exactly the one given
memory. -/
def Chunk.new (chunkIndex chunkBits : ℕ) (m : Memory E) : Chunk E :=
  ⟨chunkIndex, chunkBits, [m]⟩

/-- The identity polynomial evaluation of verify_memories: the inner product
of the successive powers of two (taken y.len() times) with y. -/
def idPoly (y : List E) : Option E :=
  inner_product (powerSeq 2 y.length) y

/-- The for_each body of Chunk::verify_memories over the memories, with the
running index i: assert_eq! of the read fingerprint, the write fingerprint,
then the evaluation of the subtable polynomial at y, then assert_eq! of the
init and final-read fingerprints.  Every failed assertion and every
out-of-range index is a panic. -/
def checkMemories (hash : E → E → E → E) (dimX readTsX finalCtsY idPolyY : E)
    (ePolyXs readXs writeXs initYs finalReadYs y : List E) :
    List (Memory E) → ℕ → Except Err Unit
  | [], _ => .ok ()
  | m :: rest, i => do
    let r ← expect (readXs.get? i)
    let e ← expect (ePolyXs.get? i)
    if r = hash dimX e readTsX then
      let w ← expect (writeXs.get? i)
      if w = hash dimX e (readTsX + 1) then
        let sub ← expect (m.subtablePoly.evaluate y)
        let iy ← expect (initYs.get? i)
        if iy = hash idPolyY sub 0 then
          let fy ← expect (finalReadYs.get? i)
          if fy = hash idPolyY sub finalCtsY then
            checkMemories hash dimX readTsX finalCtsY idPolyY ePolyXs readXs
              writeXs initYs finalReadYs y rest (i + 1)
          else .error .panicked
        else .error .panicked
      else .error .panicked
    else .error .panicked

/-- verifier.rs Chunk::verify_memories: read the three chunk openings and the
per-memory e openings, compute the identity polynomial at y, and run the
assertion loop over the memories. -/
def Chunk.verifyMemories (c : Chunk E) (readXs writeXs initYs finalReadYs y : List E)
    (hash : E → E → E → E) (tr : Transcript E) :
    Except Err ((E × E × E × List E) × Transcript E) := do
  let (vals, tr) ← tr.readFeltsAsExts 3
  match vals with
  | [dimX, readTsX, finalCtsY] => do
    let (ePolyXs, tr) ← tr.readFeltsAsExts c.memory.length
    let idPolyY ← expect (idPoly y)
    let _u ← checkMemories hash dimX readTsX finalCtsY idPolyY ePolyXs readXs
        writeXs initYs finalReadYs y c.memory 0
    .ok ((dimX, readTsX, finalCtsY, ePolyXs), tr)
  | _ => .error .panicked

/-- verifier.rs MemoryCheckingVerifier. -/
structure MemoryCheckingVerifier (E : Type) where
  chunks : List (Chunk E)

/-- verifier.rs MemoryCheckingVerifier::new: stores the chunks, performing no
validation. -/
def MemoryCheckingVerifier.new (chunks : List (Chunk E)) :
    MemoryCheckingVerifier E :=
  ⟨chunks⟩

/-- The per-chunk loop of MemoryCheckingVerifier::verify: each chunk verifies
its memories against its slice of the leaf vectors, the offset advancing by
the chunk arity. -/
def verifyChunks (hash : E → E → E → E) (readXs writeXs initYs finalReadYs y : List E) :
    List (Chunk E) → Transcript E →
    Except Err (List (E × E × E × List E) × Transcript E)
  | [], tr => .ok ([], tr)
  | c :: cs, tr => do
    let k := c.memory.length
    let (res, tr) ← c.verifyMemories (readXs.take k) (writeXs.take k)
        (initYs.take k) (finalReadYs.take k) y hash tr
    let (rest, tr) ← verifyChunks hash (readXs.drop k) (writeXs.drop k)
        (initYs.drop k) (finalReadYs.drop k) y cs tr
    .ok (res :: rest, tr)

/-- verifier.rs MemoryCheckingVerifier::verify: two grand products (one over
num_reads variables for the read/write side, one over chunks[0].chunk_bits()
variables for the init/final side, each batching 2 * num_memories lanes with
no pre-supplied claims), then the per-chunk fingerprint reconciliation with
the hash closure over gamma and tau.  Indexing chunks[0] panics when the
chunks are empty. -/
def MemoryCheckingVerifier.verify (v : MemoryCheckingVerifier E) (numReads : ℕ)
    (gamma tau : E) (tr : Transcript E) : Except Err (Transcript E) := do
  let numMemories := (v.chunks.map (fun c => c.memory.length)).sum
  match v.chunks.head? with
  | none => .error .panicked
  | some c0 => do
    let memoryBits := c0.chunkBits
    let (readWriteXs, _x, tr) ←
      verifyGrandProduct numReads (List.replicate (2 * numMemories) none) tr
    let readXs := readWriteXs.take numMemories
    let writeXs := readWriteXs.drop numMemories
    let (initFinalReadYs, y, tr) ←
      verifyGrandProduct memoryBits (List.replicate (2 * numMemories) none) tr
    let initYs := initFinalReadYs.take numMemories
    let finalReadYs := initFinalReadYs.drop numMemories
    let (_results, tr) ← verifyChunks (fingerprintHash gamma tau) readXs writeXs
        initYs finalReadYs y v.chunks tr
    .ok tr

/-- The transcript events produced by the claim-resolution phase of
verify_grand_product: one absorb per supplied claim, one read per missing
claim, in order. -/
def claimTrace (claims : List (Option E)) : List Event :=
  claims.map (fun c => match c with | some _ => .common | none => .readFelt)

/-- The transcript events produced inside the modelled external sum-check
verifier for k rounds: one read and one squeeze per round. -/
def scInternal : ℕ → List Event
  | 0 => []
  | k + 1 => Event.readFelt :: Event.squeeze :: scInternal k

/-- The transcript events of one full round of the grand-product loop with
num_batching = b and round index r: the gpRound events followed by the
folding-challenge squeeze. -/
def roundTrace (b r : ℕ) : List Event :=
  (if r = 0 then [Event.readFelts (2 * b)]
   else [Event.squeeze, Event.sumCheckCall r b] ++ scInternal r ++
     [Event.readFelts (2 * b)]) ++ [Event.squeeze]

/-- The transcript events of the grand-product loop over a list of round
indices. -/
def gpTrace (b : ℕ) : List ℕ → List Event
  | [] => []
  | r :: rest => roundTrace b r ++ gpTrace b rest

/-- The observable part of a verify_grand_product result. -/
def gpObs (r : Except Err (List E × List E × Transcript E)) :
    Except Err (List E × List E × (List E × ℕ × List Event)) :=
  r.map (fun p => (p.1, p.2.1, p.2.2.obs))

/-- The observable part of a MemoryCheckingVerifier::verify result. -/
def verifyObs (r : Except Err (Transcript E)) :
    Except Err (List E × ℕ × List Event) :=
  r.map Transcript.obs

/-- Transcript for the C1 counterexample: the two output claims 3 and 5
followed by four would-be leaves 1, 1, 1, 1 whose lane products do not match
the claims. -/
def tcC1 : Transcript ℤ :=
  { reads := [3, 5, 1, 1, 1, 1], chal := fun _ => 0 }

/-- Transcript for the C1 witness run with num_vars = 1 on the same stream. -/
def tcC1b : Transcript ℤ :=
  { reads := [3, 5, 1, 1, 1, 1], chal := fun _ => 0 }

/-- tcC1b after the two claim reads. -/
def tcC1r1 : Transcript ℤ :=
  { reads := [1, 1, 1, 1], chal := fun _ => 0, chalIdx := 0,
    trace := [.readFelt, .readFelt] }

/-- tcC1r1 after the four leaf reads. -/
def tcC1r2 : Transcript ℤ :=
  { reads := [], chal := fun _ => 0, chalIdx := 0,
    trace := [.readFelt, .readFelt, .readFelts 4] }

/-- Transcript for the C2 counterexample: claim 6, then the two leaves 2 and
3 read by round index 0 of a num_vars = 1 run. -/
def tcC2 : Transcript ℤ :=
  { reads := [6, 2, 3], chal := fun _ => 0 }

/-- Transcript for the C2 witness: a complete num_vars = 2 run with one lane
(claim 4, round-0 leaves 2 and 2, one sum-check round message 9, round-1
leaves 7 and 7), all challenges 0. -/
def tcC2w : Transcript ℤ :=
  { reads := [4, 2, 2, 9, 7, 7], chal := fun _ => 0 }

/-- The final transcript of the tcC2w run. -/
def tcC2w1 : Transcript ℤ :=
  { reads := [], chal := fun _ => 0, chalIdx := 4,
    trace := [.readFelt, .readFelts 2, .squeeze, .squeeze, .sumCheckCall 1 1,
      .readFelt, .squeeze, .readFelts 2, .squeeze] }

/-- A one-chunk, one-memory verifier whose subtable polynomial is declared
over one variable, matching chunk_bits = 1. -/
def mcvC3 : MemoryCheckingVerifier ℤ :=
  ⟨[⟨0, 1, [⟨0, ⟨1, .Var 0⟩⟩]⟩]⟩

/-- Transcript for the C3 counterexample run of verify with num_reads = 0,
gamma = tau = 0: the first grand product resolves claims 1 and 0, the second
resolves claims 0 and 0 and reads four zero leaves, and the chunk openings
are all zero, so the read fingerprint check compares 1 with 0 and the
assertion fails. -/
def tcC3 : Transcript ℤ :=
  { reads := [1, 0, 0, 0, 0, 0, 0, 0, 0, 0, 0, 0], chal := fun _ => 0 }

/-- A chunk for the C3 witness: one memory over one variable. -/
def chunkC3w : Chunk ℤ :=
  ⟨0, 1, [⟨0, ⟨1, .Var 0⟩⟩]⟩

/-- Transcript openings for the C3 witness: dim = 5, read_ts = 0,
final_cts = 0, e = 7; with gamma = tau = 0 every fingerprint reduces to its
address argument. -/
def tcC3w : Transcript ℤ :=
  { reads := [5, 0, 0, 7], chal := fun _ => 0 }

/-- The final transcript of the tcC3w verify_memories run. -/
def tcC3w1 : Transcript ℤ :=
  { reads := [], chal := fun _ => 0, chalIdx := 0,
    trace := [.readAsExts 3, .readAsExts 1] }

/-- Empty transcript for the C7 counterexample. -/
def tcC7 : Transcript ℤ :=
  { reads := [], chal := fun _ => 0 }

/-- A terms polynomial declared over two variables. -/
def mlptC10 : MultilinearPolyTerms ℤ :=
  ⟨2, .Var 0⟩

/-- A verifier whose single chunk has chunk_bits = 1 but whose memory carries
a subtable polynomial declared over two variables. -/
def mcvC10 : MemoryCheckingVerifier ℤ :=
  ⟨[⟨0, 1, [⟨0, mlptC10⟩]⟩]⟩

/-- All-zero transcript for the C10 run: both grand products and the two
fingerprint checks of the read/write side succeed on zeros, and verify
reaches the subtable evaluation at the length-1 point y. -/
def tcC10 : Transcript ℤ :=
  { reads := List.replicate 12 0, chal := fun _ => 0 }

theorem exceptBind_ok {α β : Type} (a : α) (f : α → Except Err β) :
    (Except.ok a >>= f) = f a := rfl

theorem exceptBind_error {α β : Type} (e : Err) (f : α → Except Err β) :
    ((Except.error e : Except Err α) >>= f) = .error e := rfl

/-- A successful read_felt_ext appends one readFelt event. -/
theorem readFeltExt_trace {tr tr1 : Transcript E} {v : E}
    (h : tr.readFeltExt = .ok (v, tr1)) :
    tr1.trace = tr.trace ++ [Event.readFelt] := by
  rcases hr : tr.reads with _ | ⟨a, rest⟩ <;>
    rw [Transcript.readFeltExt, hr] at h
  · exact absurd h (by simp)
  · obtain ⟨h1, h2⟩ : a = v ∧ _ = tr1 := by simpa using h
    rw [← h2]

/-- A successful read_felt_exts(n) appends one readFelts event. -/
theorem readFeltExts_trace {n : ℕ} {tr tr1 : Transcript E} {vs : List E}
    (h : tr.readFeltExts n = .ok (vs, tr1)) :
    tr1.trace = tr.trace ++ [Event.readFelts n] := by
  rcases ht : takeReads (E := E) n tr.reads with e | ⟨vs2, left⟩ <;>
    rw [Transcript.readFeltExts, ht] at h
  · exact absurd h (by simp [exceptBind_error])
  · rw [exceptBind_ok] at h
    obtain ⟨h1, h2⟩ : vs2 = vs ∧ _ = tr1 := by simpa using h
    rw [← h2]

/-- A successful read_felts_as_exts(n) appends one readAsExts event. -/
theorem readFeltsAsExts_trace {n : ℕ} {tr tr1 : Transcript E} {vs : List E}
    (h : tr.readFeltsAsExts n = .ok (vs, tr1)) :
    tr1.trace = tr.trace ++ [Event.readAsExts n] := by
  rcases ht : takeReads (E := E) n tr.reads with e | ⟨vs2, left⟩ <;>
    rw [Transcript.readFeltsAsExts, ht] at h
  · exact absurd h (by simp [exceptBind_error])
  · rw [exceptBind_ok] at h
    obtain ⟨h1, h2⟩ : vs2 = vs ∧ _ = tr1 := by simpa using h
    rw [← h2]

/-- squeeze_challenge appends one squeeze event. -/
theorem squeezeChallenge_trace (tr : Transcript E) :
    (tr.squeezeChallenge).2.trace = tr.trace ++ [Event.squeeze] := rfl

/-- A successful claim resolution appends exactly the claim events. -/
theorem resolveClaims_trace {claims : List (Option E)} :
    ∀ {tr tr1 : Transcript E} {cs : List E},
    resolveClaims claims tr = .ok (cs, tr1) →
    tr1.trace = tr.trace ++ claimTrace claims := by
  induction claims with
  | nil =>
    intro tr tr1 cs h
    obtain ⟨h1, h2⟩ : cs = [] ∧ tr = tr1 := by simpa [resolveClaims] using h
    rw [← h2]
    simp [claimTrace]
  | cons c rest ih =>
    intro tr tr1 cs h
    rcases c with _ | c
    · rw [resolveClaims] at h
      rcases hre : tr.readFeltExt with e | ⟨v2, tr2⟩
      · simp [hre, exceptBind_error] at h
      · rcases hrc : resolveClaims rest tr2 with e | ⟨cs2, tr3⟩
        · simp [hre, hrc, exceptBind_ok, exceptBind_error] at h
        · simp only [hre, hrc, exceptBind_ok] at h
          obtain ⟨h1, h2⟩ : v2 :: cs2 = cs ∧ tr3 = tr1 := by simpa using h
          rw [← h2, ih hrc, readFeltExt_trace hre]
          simp [claimTrace]
    · rw [resolveClaims] at h
      rcases hrc : resolveClaims rest tr.commonFelts with e | ⟨cs2, tr3⟩
      · simp [hrc, exceptBind_error] at h
      · simp only [hrc, exceptBind_ok] at h
        obtain ⟨h1, h2⟩ : c :: cs2 = cs ∧ tr3 = tr1 := by simpa using h
        rw [← h2, ih hrc]
        simp [Transcript.commonFelts, claimTrace]

/-- The modelled sum-check rounds append one read and one squeeze per round. -/
theorem scRounds_trace {k : ℕ} :
    ∀ {tr tr1 : Transcript E} {pt : List E},
    scRounds k tr = .ok (pt, tr1) →
    tr1.trace = tr.trace ++ scInternal k := by
  induction k with
  | zero =>
    intro tr tr1 pt h
    obtain ⟨h1, h2⟩ : [] = pt ∧ tr = tr1 := by simpa [scRounds] using h
    rw [← h2]
    simp [scInternal]
  | succ k ih =>
    intro tr tr1 pt h
    rw [scRounds] at h
    rcases hre : tr.readFeltExt with e | ⟨m, tr2⟩
    · simp [hre, exceptBind_error] at h
    · rw [hre, exceptBind_ok] at h
      dsimp only at h
      rcases hsq : tr2.squeezeChallenge with ⟨c, tr3⟩
      have htr3 : tr3.trace = tr2.trace ++ [Event.squeeze] := by
        have hs := squeezeChallenge_trace tr2
        rw [hsq] at hs
        simpa using hs
      rw [hsq] at h
      rcases hsc : scRounds k tr3 with e | ⟨rest2, tr4⟩
      · simp [hsc, exceptBind_error] at h
      · simp only [hsc, exceptBind_ok] at h
        obtain ⟨h1, h2⟩ : c :: rest2 = pt ∧ tr4 = tr1 := by simpa using h
        rw [← h2, ih hsc, htr3, readFeltExt_trace hre]
        simp [scInternal]

/-- The modelled external sum-check appends its invocation marker and the
per-round events. -/
theorem verify_sum_check_trace {g : SumCheckG E} {claim : E}
    {tr tr1 : Transcript E} {ev : E} {pt : List E}
    (h : verify_sum_check g claim tr = .ok (ev, pt, tr1)) :
    tr1.trace = tr.trace ++
      [Event.sumCheckCall g.numVars g.numBatching] ++ scInternal g.numVars := by
  rw [verify_sum_check] at h
  rcases hsc : scRounds g.numVars (tr.logSumCheck g.numVars g.numBatching)
      with e | ⟨pt2, tr2⟩
  · simp [hsc, exceptBind_error] at h
  · simp only [hsc, exceptBind_ok] at h
    obtain ⟨h1, h2, h3⟩ : claim = ev ∧ pt2 = pt ∧ tr2 = tr1 := by simpa using h
    rw [← h3, scRounds_trace hsc]
    simp [Transcript.logSumCheck]

/-- A successful gpRound appends the round events (without the folding
squeeze). -/
theorem gpRound_trace {b r : ℕ} {claims : List E} {tr : Transcript E}
    {x evals : List E} {tr1 : Transcript E}
    (h : gpRound b r claims tr = .ok (x, evals, tr1)) :
    tr1.trace = tr.trace ++
      (if r = 0 then [Event.readFelts (2 * b)]
       else [Event.squeeze, Event.sumCheckCall r b] ++ scInternal r ++
         [Event.readFelts (2 * b)]) := by
  by_cases hr : r = 0
  · subst hr
    rw [gpRound, if_pos rfl] at h
    rcases hrd : tr.readFeltExts (2 * b) with e | ⟨evs, tr2⟩
    · simp [hrd, exceptBind_error] at h
    · simp only [hrd, exceptBind_ok] at h
      by_cases hcp : checkProducts claims evs
      · rw [if_pos hcp] at h
        obtain ⟨h1, h2, h3⟩ : [] = x ∧ evs = evals ∧ tr2 = tr1 := by simpa using h
        rw [if_pos rfl, ← h3, readFeltExts_trace hrd]
      · rw [if_neg hcp] at h
        exact absurd h (by simp)
  · rw [gpRound, if_neg hr] at h
    rcases hsq : tr.squeezeChallenge with ⟨gamma, tr2⟩
    have htr2 : tr2.trace = tr.trace ++ [Event.squeeze] := by
      have hs := squeezeChallenge_trace tr
      rw [hsq] at hs
      simpa using hs
    rw [hsq] at h
    rcases hvs : verify_sum_check (⟨r, b, gamma⟩ : SumCheckG E)
        (sum_check_claim claims gamma) tr2 with e | ⟨ev, pt, tr3⟩
    · simp [hvs, exceptBind_error] at h
    · simp only [hvs, exceptBind_ok] at h
      rcases hrd : tr3.readFeltExts (2 * b) with e | ⟨evs, tr4⟩
      · simp [hrd, exceptBind_error] at h
      · simp only [hrd, exceptBind_ok] at h
        obtain ⟨h1, h2, h3⟩ : pt = x ∧ evs = evals ∧ tr4 = tr1 := by simpa using h
        rw [if_neg hr, ← h3, readFeltExts_trace hrd, verify_sum_check_trace hvs,
          htr2]
        simp

/-- A successful grand-product loop appends the round traces of its round
indices. -/
theorem gpLoop_trace {b : ℕ} {rounds : List ℕ} :
    ∀ {claims point : List E} {tr : Transcript E} {v pt : List E}
      {tr1 : Transcript E},
    gpLoop b rounds claims point tr = .ok (v, pt, tr1) →
    tr1.trace = tr.trace ++ gpTrace b rounds := by
  induction rounds with
  | nil =>
    intro claims point tr v pt tr1 h
    obtain ⟨h1, h2, h3⟩ : claims = v ∧ point = pt ∧ tr = tr1 := by
      simpa [gpLoop] using h
    rw [← h3]
    simp [gpTrace]
  | cons r rest ih =>
    intro claims point tr v pt tr1 h
    rw [gpLoop] at h
    rcases hgr : gpRound b r claims tr with e | ⟨x, evals, tr2⟩
    · simp [hgr, exceptBind_error] at h
    · simp only [hgr, exceptBind_ok] at h
      rcases hsq : tr2.squeezeChallenge with ⟨mu, tr3⟩
      have htr3 : tr3.trace = tr2.trace ++ [Event.squeeze] := by
        have hs := squeezeChallenge_trace tr2
        rw [hsq] at hs
        simpa using hs
      rw [hsq] at h
      have h2 : gpLoop b rest (layer_down_claim evals mu) (x ++ [mu]) tr3 =
          .ok (v, pt, tr1) := h
      rw [ih h2, htr3, gpRound_trace hgr]
      simp [gpTrace, roundTrace]

/-- Claim resolution performs no sum-check invocation. -/
theorem claimTrace_countP (claims : List (Option E)) :
    (claimTrace claims).countP Event.isSumCheckCall = 0 := by
  induction claims with
  | nil => simp [claimTrace]
  | cons c rest ih =>
    rcases c with _ | c <;>
      simpa [claimTrace, Event.isSumCheckCall] using ih

/-- The modelled sum-check internals perform no further sum-check
invocation. -/
theorem scInternal_countP (k : ℕ) :
    (scInternal k).countP Event.isSumCheckCall = 0 := by
  induction k with
  | zero => simp [scInternal]
  | succ k ih => simpa [scInternal, Event.isSumCheckCall] using ih

/-- Each round performs exactly one sum-check invocation unless it is round
index 0, which performs none. -/
theorem roundTrace_countP (b r : ℕ) :
    (roundTrace b r).countP Event.isSumCheckCall = if r = 0 then 0 else 1 := by
  by_cases hr : r = 0 <;>
    simp [roundTrace, hr, Event.isSumCheckCall, scInternal_countP]

theorem gpTrace_append (b : ℕ) (l1 l2 : List ℕ) :
    gpTrace b (l1 ++ l2) = gpTrace b l1 ++ gpTrace b l2 := by
  induction l1 with
  | nil => simp [gpTrace]
  | cons r rest ih => simp [gpTrace, ih]

/-- A run over the round indices 0..n performs exactly n - 1 sum-check
invocations. -/
theorem gpTrace_range_countP (b n : ℕ) :
    (gpTrace b (List.range n)).countP Event.isSumCheckCall = n - 1 := by
  induction n with
  | zero => simp [gpTrace]
  | succ n ih =>
    rw [List.range_succ, gpTrace_append, List.countP_append, ih]
    have hr := roundTrace_countP b n
    rcases Nat.eq_zero_or_pos n with h0 | hpos
    · subst h0
      simp [gpTrace, hr]
    · rw [gpTrace, gpTrace, List.append_nil, hr, if_neg (Nat.pos_iff_ne_zero.mp hpos)]
      omega

/-- C1 (amended): with num_vars = 0 the round loop of verify_grand_product
does not run at all: the verifier only resolves the 2M output claims and
returns them with an empty point, reading no leaves and checking no products.
The 2M-pair product check with error InvalidSumCheck("unmatched sum check
output") happens instead in the first round (round index 0) of any call with
num_vars >= 1. -/
theorem C1_terminal_round_corrected (claims : List (Option E))
    (tr : Transcript E) (hne : claims ≠ []) :
    verifyGrandProduct 0 claims tr =
      (resolveClaims claims tr).map (fun p => (p.1, ([] : List E), p.2))
    ∧ (∀ (cs : List E) (tr1 : Transcript E) (evals : List E)
        (tr2 : Transcript E),
        resolveClaims claims tr = .ok (cs, tr1) →
        tr1.readFeltExts (2 * claims.length) = .ok (evals, tr2) →
        ((checkProducts cs evals = false →
          verifyGrandProduct 1 claims tr =
            .error (.invalidSumCheck "unmatched sum check output"))
        ∧ (checkProducts cs evals = true →
          verifyGrandProduct 1 claims tr =
            .ok (layer_down_claim evals (tr2.squeezeChallenge).1,
              [(tr2.squeezeChallenge).1], (tr2.squeezeChallenge).2)))) := by
  have hz : ¬ (claims.length = 0) := by
    simpa [List.length_eq_zero] using hne
  constructor
  · rw [verifyGrandProduct, if_neg hz]
    rcases hres : resolveClaims claims tr with e | ⟨cs, tr2⟩
    · simp [exceptBind_error, Except.map]
    · rw [exceptBind_ok]
      dsimp only
      simp [gpLoop, Except.map]
  · intro cs tr1 evals tr2 hres hread
    constructor
    · intro hcp
      rw [verifyGrandProduct, if_neg hz, hres, exceptBind_ok]
      dsimp only
      rw [show List.range 1 = [0] from rfl, gpLoop, gpRound, if_pos rfl, hread,
        exceptBind_ok]
      dsimp only
      rw [if_neg (by simp [hcp]), exceptBind_error]
    · intro hcp
      rw [verifyGrandProduct, if_neg hz, hres, exceptBind_ok]
      dsimp only
      rw [show List.range 1 = [0] from rfl, gpLoop, gpRound, if_pos rfl, hread,
        exceptBind_ok]
      dsimp only
      rw [if_pos hcp, exceptBind_ok]
      rfl

/-- C1 counterexample: a num_vars = 0 call on a transcript whose stream
continues with leaves 1, 1, 1, 1 returns success having read only the two
claims 3 and 5, although the claimed lane products do not match (the claim
predicts the leaves are read and InvalidSumCheck is returned). -/
theorem C1_counterexample :
    gpObs (verifyGrandProduct (E := ℤ) 0 [none, none] tcC1)
      = .ok ([3, 5], [], ([1, 1, 1, 1], 0, [.readFelt, .readFelt]))
    ∧ ¬ ((3 : ℤ) = 1 * 1 ∧ (5 : ℤ) = 1 * 1) := by
  constructor
  · rfl
  · decide

/-- C1 witness: the amended claim evaluated on the same stream with
num_vars = 1: the leaves are read and the mismatch fails with
InvalidSumCheck. -/
theorem C1_witness :
    verifyGrandProduct (E := ℤ) 1 [none, none] tcC1b =
      .error (.invalidSumCheck "unmatched sum check output") :=
  ((C1_terminal_round_corrected [none, none] tcC1b (by decide)).2
    [3, 5] tcC1r1 [1, 1, 1, 1] tcC1r2 rfl rfl).1 (by decide)

/-- C2 (amended): for num_vars = n >= 1, a successful verify_grand_product
interacts with the transcript in the strict order: resolve the claims, then
round index 0 (read 2M leaf pairs, squeeze the folding challenge, no batching
challenge and no sum-check), then for each round index r = 1..n-1: squeeze a
batching challenge, invoke the external sum-check on the layer polynomial
with num_vars = r and num_batching = 2M, read 2M leaf pairs, squeeze the
folding challenge.  In particular verify_sum_check is invoked exactly n - 1
times, not n. -/
theorem C2_round_order_corrected (n : ℕ) (claims : List (Option E))
    (tr : Transcript E) (v pt : List E) (tr1 : Transcript E) (hn : 1 ≤ n)
    (h : verifyGrandProduct n claims tr = .ok (v, pt, tr1)) :
    tr1.trace = tr.trace ++ claimTrace claims ++
      gpTrace claims.length (List.range n)
    ∧ (claimTrace claims ++ gpTrace claims.length (List.range n)).countP
        Event.isSumCheckCall = n - 1 := by
  constructor
  · rw [verifyGrandProduct] at h
    by_cases hz : claims.length = 0
    · rw [if_pos hz] at h
      exact absurd h (by simp)
    · rw [if_neg hz] at h
      rcases hres : resolveClaims claims tr with e | ⟨cs, tr2⟩
      · simp [hres, exceptBind_error] at h
      · rw [hres, exceptBind_ok] at h
        dsimp only at h
        have h2 : gpLoop claims.length (List.range n) cs [] tr2 =
            .ok (v, pt, tr1) := h
        rw [gpLoop_trace h2, resolveClaims_trace hres]
  · rw [List.countP_append, claimTrace_countP, gpTrace_range_countP]
    omega

/-- C2 counterexample: a successful num_vars = 1 run whose complete event
trace contains no sum-check invocation at all and starts with the leaf read,
while the claim predicts exactly one invocation preceded by a batching
challenge. -/
theorem C2_counterexample :
    gpObs (verifyGrandProduct (E := ℤ) 1 [none] tcC2)
      = .ok ([2], [0], ([], 1, [.readFelt, .readFelts 2, .squeeze]))
    ∧ [Event.readFelt, .readFelts 2, .squeeze].countP Event.isSumCheckCall
        = 0 := by
  constructor
  · rfl
  · decide

/-- C2 witness: the amended claim evaluated on a complete num_vars = 2 run
with one lane. -/
theorem C2_witness :
    tcC2w1.trace = tcC2w.trace ++ claimTrace ([none] : List (Option ℤ)) ++
      gpTrace 1 (List.range 2)
    ∧ (claimTrace ([none] : List (Option ℤ)) ++ gpTrace 1 (List.range 2)).countP
        Event.isSumCheckCall = 2 - 1 :=
  C2_round_order_corrected 2 [none] tcC2w [7] [0, 0] tcC2w1 (by decide) rfl

/-- C4: FullLimbSubtable::evaluate_mle as written indexes point[point.len()]
and panics on any non-empty point; at [0, 1, 0, 1] it does not return
E::from(10) as the claim (and the intended mathematics) says. -/
theorem C4_full_limb_mle_bug :
    FullLimbSubtable.evaluate_mle (E := ℤ) [0, 1, 0, 1] = none
    ∧ (none : Option ℤ) ≠ some 10 := ⟨rfl, by decide⟩

/-- C5: ReminderSubtable::evaluate_mle likewise indexes point[point.len()]
and panics on any non-empty point; at NUM_BITS = 5, LIMB_BITS = 4 and point
[1, 1, 0, 0] it does not return the claimed value
(sum of the low bits) * (vanishing factor) = 0. -/
theorem C5_remainder_mle_bug :
    ReminderSubtable.evaluate_mle (E := ℤ) 5 4 [1, 1, 0, 0] = none
    ∧ (none : Option ℤ) ≠ some 0 := ⟨rfl, by decide⟩

/-- C6: the fingerprint hash is h(a, v, t) = a + gamma v + gamma^2 t - tau;
bumping the timestamp by one changes the hash by exactly gamma^2, and with
gamma = 2, tau = 5, a = 3, v = 4, t = 7 it returns 34. -/
theorem C6_fingerprint_hash :
    (∀ (R : Type) [CommRing R] [DecidableEq R] (gam tau a v t : R),
      fingerprintHash gam tau a v (t + 1) - fingerprintHash gam tau a v t
        = gam ^ 2)
    ∧ fingerprintHash (E := ℤ) 2 5 3 4 7 = 34 := by
  constructor
  · intro R _ _ gam tau a v t
    simp only [fingerprintHash]
    ring
  · norm_num [fingerprintHash]

/-- C7 (amended): the code performs no Malformed validation.
MemoryCheckingVerifier::new stores any chunks vector unchecked (including an
empty one), Chunk::new always builds a chunk with exactly one memory (an
empty memory list cannot arise from it), and verify_grand_product with
num_batching = 0 panics on assert!(num_batching != 0) instead of returning
Malformed. -/
theorem C7_malformed_corrected :
    (∀ (numVars : ℕ) (tr : Transcript E),
      verifyGrandProduct numVars ([] : List (Option E)) tr = .error .panicked)
    ∧ (∀ chunks : List (Chunk E),
        (MemoryCheckingVerifier.new chunks).chunks = chunks)
    ∧ (∀ (i b : ℕ) (m : Memory E), (Chunk.new i b m).memory = [m]) := by
  exact ⟨fun _ _ => rfl, fun _ => rfl, fun _ _ _ => rfl⟩

/-- C7 counterexample: verify_grand_product with an empty claim vector ends
in a panic, not in the error Malformed. -/
theorem C7_counterexample :
    gpObs (verifyGrandProduct (E := ℤ) 3 [] tcC7) = .error .panicked
    ∧ Err.panicked ≠ Err.malformed := ⟨rfl, by decide⟩

/-- C8: chunk_bits is LIMB_BITS repeated NUM_BITS / LIMB_BITS times followed
by the remainder width iff nonzero, and num_memories is the ceiling of
NUM_BITS / LIMB_BITS (stated as the ceiling division and by its Galois
characterization: it is the least c with NUM_BITS <= LIMB_BITS * c); for
NUM_BITS = 17, LIMB_BITS = 16 they are [16, 1] and 2. -/
theorem C8_chunk_bits_num_memories (N L : ℕ) (h : 0 < L) :
    chunk_bits N L = List.replicate (N / L) L ++
      (if N % L = 0 then [] else [N % L])
    ∧ num_memories N L = N ⌈/⌉ L
    ∧ (∀ c : ℕ, num_memories N L ≤ c ↔ N ≤ L * c)
    ∧ chunk_bits 17 16 = [16, 1] ∧ num_memories 17 16 = 2 := by
  refine ⟨?_, rfl, ?_, by decide, by decide⟩
  · by_cases hz : N % L = 0 <;> simp [chunk_bits, hz]
  · intro c
    exact ceilDiv_le_iff_le_mul h

/-- C8 witness: the concrete instance NUM_BITS = 17, LIMB_BITS = 16. -/
theorem C8_witness :
    chunk_bits 17 16 = [16, 1] ∧ num_memories 17 16 = 2 :=
  (C8_chunk_bits_num_memories 17 16 (by decide)).2.2.2

/-- The inner product of a list against the geometric sequence of w scaled
by a is a times the Horner recomposition. -/
theorem zip_powerSeq_sum (w : E) :
    ∀ (xs : List E) (a : E),
    ((xs.zip ((List.range xs.length).map (fun i => a * w ^ i))).map
      (fun p => p.1 * p.2)).sum = a * limbRecompose w xs := by
  intro xs
  induction xs with
  | nil => intro a; simp [limbRecompose]
  | cons x rest ih =>
    intro a
    rw [List.length_cons, List.range_succ_eq_map]
    simp only [List.map_cons, List.map_map, List.zip_cons_cons, List.sum_cons]
    have hmap : (List.range rest.length).map ((fun i => a * w ^ i) ∘ Nat.succ)
        = (List.range rest.length).map (fun i => (a * w) * w ^ i) := by
      congr 1
      funext i
      simp only [Function.comp_apply, pow_succ]
      ring
    rw [hmap, ih (a * w), limbRecompose]
    ring

/-- C9: for every operand list, combine_lookups returns the recomposition of
the value from its limbs with weight 2^LIMB_BITS (for LIMB_BITS < 64, where
the weight shift 1u64 << LIMB_BITS does not overflow). -/
theorem C9_combine_lookups (L : ℕ) (xs : List E) (h : L < 64) :
    combine_lookups L xs = some (limbRecompose ((2 : E) ^ L) xs) := by
  rw [combine_lookups, if_pos h, inner_product, powerSeq]
  rw [if_pos (by simp)]
  have hcast : ((1 <<< L : ℕ) : E) = (2 : E) ^ L := by
    rw [Nat.shiftLeft_eq, one_mul]
    push_cast
    rfl
  rw [hcast]
  congr 1
  have hz := zip_powerSeq_sum ((2 : E) ^ L) xs 1
  simpa [one_mul] using hz

/-- C9 witness: three limbs of width 4 recompose with weight 16. -/
theorem C9_witness :
    combine_lookups (E := ℤ) 4 [1, 2, 3] = some 801 := by
  have h := C9_combine_lookups (E := ℤ) 4 [1, 2, 3] (by decide)
  rw [h]
  norm_num [limbRecompose]

/-- C10: MultilinearPolyTerms::evaluate asserts that the point length equals
the declared num_vars (modelled as a panic on mismatch), and a verifier
holding a memory whose subtable polynomial is declared over two variables
while chunks[0].chunk_bits() = 1 makes verify panic on that assertion (the
run reaches the evaluation: both grand products and the read/write
fingerprint checks succeed on the all-zero transcript). -/
theorem C10_subtable_num_vars_panic :
    (∀ (R : Type) [CommRing R] [DecidableEq R] (t : MultilinearPolyTerms R)
      (x : List R), x.length ≠ t.numVars → t.evaluate x = none)
    ∧ verifyObs (mcvC10.verify 0 0 0 tcC10) = .error .panicked := by
  constructor
  · intro R _ _ t x hx
    rw [MultilinearPolyTerms.evaluate, if_neg hx]
  · rfl

/-- C10 witness: the two-variable terms polynomial evaluated at a length-1
point panics. -/
theorem C10_witness : mlptC10.evaluate ([0] : List ℤ) = none :=
  C10_subtable_num_vars_panic.1 ℤ mlptC10 [0] (by decide)

/-- takeReads can only fail with transcript exhaustion. -/
theorem takeReads_error {n : ℕ} :
    ∀ {l : List E} {e : Err}, takeReads n l = .error e →
    e = .transcriptExhausted := by
  induction n with
  | zero => intro l e h; simp [takeReads] at h
  | succ n ih =>
    intro l e h
    rcases l with _ | ⟨v, rest⟩
    · obtain rfl : Err.transcriptExhausted = e := by simpa [takeReads] using h
      rfl
    · rw [takeReads] at h
      rcases ht : takeReads (E := E) n rest with e2 | ⟨vs, left⟩
      · rw [ht, exceptBind_error] at h
        obtain rfl : e2 = e := by simpa using h
        exact ih ht
      · rw [ht, exceptBind_ok] at h
        exact absurd h (by simp)

/-- read_felts_as_exts can only fail with transcript exhaustion. -/
theorem readFeltsAsExts_error {n : ℕ} {tr : Transcript E} {e : Err}
    (h : tr.readFeltsAsExts n = .error e) : e = .transcriptExhausted := by
  rw [Transcript.readFeltsAsExts] at h
  rcases ht : takeReads (E := E) n tr.reads with e2 | ⟨vs, left⟩
  · rw [ht, exceptBind_error] at h
    obtain rfl : e2 = e := by simpa using h
    exact takeReads_error ht
  · rw [ht, exceptBind_ok] at h
    exact absurd h (by simp)

/-- The assertion loop of verify_memories can only abort by panicking. -/
theorem checkMemories_error {hash : E → E → E → E}
    {dimX readTsX finalCtsY idPolyY : E}
    {ePolyXs readXs writeXs initYs finalReadYs y : List E} :
    ∀ (mems : List (Memory E)) (i0 : ℕ) (e : Err),
    checkMemories hash dimX readTsX finalCtsY idPolyY ePolyXs readXs writeXs
      initYs finalReadYs y mems i0 = .error e → e = .panicked := by
  intro mems
  induction mems with
  | nil => intro i0 e h; simp [checkMemories] at h
  | cons m rest ih =>
    intro i0 e h
    rw [checkMemories] at h
    rcases hr : readXs.get? i0 with _ | r
    · rw [hr] at h
      obtain rfl : Err.panicked = e := by simpa [expect, exceptBind_error] using h
      rfl
    · rw [hr] at h
      simp only [expect, exceptBind_ok] at h
      rcases he : ePolyXs.get? i0 with _ | e0
      · rw [he] at h
        obtain rfl : Err.panicked = e := by
          simpa [expect, exceptBind_error] using h
        rfl
      · rw [he] at h
        simp only [expect, exceptBind_ok] at h
        by_cases h1 : r = hash dimX e0 readTsX
        · rw [if_pos h1] at h
          rcases hw : writeXs.get? i0 with _ | w
          · rw [hw] at h
            obtain rfl : Err.panicked = e := by
              simpa [expect, exceptBind_error] using h
            rfl
          · rw [hw] at h
            simp only [expect, exceptBind_ok] at h
            by_cases h2 : w = hash dimX e0 (readTsX + 1)
            · rw [if_pos h2] at h
              rcases hs : m.subtablePoly.evaluate y with _ | sub
              · rw [hs] at h
                obtain rfl : Err.panicked = e := by
                  simpa [expect, exceptBind_error] using h
                rfl
              · rw [hs] at h
                simp only [expect, exceptBind_ok] at h
                rcases hi : initYs.get? i0 with _ | iy
                · rw [hi] at h
                  obtain rfl : Err.panicked = e := by
                    simpa [expect, exceptBind_error] using h
                  rfl
                · rw [hi] at h
                  simp only [expect, exceptBind_ok] at h
                  by_cases h3 : iy = hash idPolyY sub 0
                  · rw [if_pos h3] at h
                    rcases hf : finalReadYs.get? i0 with _ | fy
                    · rw [hf] at h
                      obtain rfl : Err.panicked = e := by
                        simpa [expect, exceptBind_error] using h
                      rfl
                    · rw [hf] at h
                      simp only [expect, exceptBind_ok] at h
                      by_cases h4 : fy = hash idPolyY sub finalCtsY
                      · rw [if_pos h4] at h
                        exact ih (i0 + 1) e h
                      · rw [if_neg h4] at h
                        obtain rfl : Err.panicked = e := by simpa using h
                        rfl
                  · rw [if_neg h3] at h
                    obtain rfl : Err.panicked = e := by simpa using h
                    rfl
            · rw [if_neg h2] at h
              obtain rfl : Err.panicked = e := by simpa using h
              rfl
        · rw [if_neg h1] at h
          obtain rfl : Err.panicked = e := by simpa using h
          rfl

/-- If the assertion loop of verify_memories succeeds then every memory
passes its four fingerprint equalities. -/
theorem checkMemories_ok {hash : E → E → E → E}
    {dimX readTsX finalCtsY idPolyY : E}
    {ePolyXs readXs writeXs initYs finalReadYs y : List E} :
    ∀ (mems : List (Memory E)) (i0 : ℕ),
    checkMemories hash dimX readTsX finalCtsY idPolyY ePolyXs readXs writeXs
      initYs finalReadYs y mems i0 = .ok () →
    ∀ j, j < mems.length →
      readXs.get? (i0 + j) = (ePolyXs.get? (i0 + j)).map
        (fun e => hash dimX e readTsX) ∧
      writeXs.get? (i0 + j) = (ePolyXs.get? (i0 + j)).map
        (fun e => hash dimX e (readTsX + 1)) ∧
      initYs.get? (i0 + j) = ((mems.get? j).bind
        (fun m => m.subtablePoly.evaluate y)).map
        (fun sub => hash idPolyY sub 0) ∧
      finalReadYs.get? (i0 + j) = ((mems.get? j).bind
        (fun m => m.subtablePoly.evaluate y)).map
        (fun sub => hash idPolyY sub finalCtsY) := by
  intro mems
  induction mems with
  | nil =>
    intro i0 h j hj
    exact absurd hj (by simp)
  | cons m rest ih =>
    intro i0 h j hj
    rw [checkMemories] at h
    rcases hr : readXs.get? i0 with _ | r
    · rw [hr] at h
      exact absurd h (by simp [expect, exceptBind_error])
    · rw [hr] at h
      simp only [expect, exceptBind_ok] at h
      rcases he : ePolyXs.get? i0 with _ | e0
      · rw [he] at h
        exact absurd h (by simp [expect, exceptBind_error])
      · rw [he] at h
        simp only [expect, exceptBind_ok] at h
        by_cases h1 : r = hash dimX e0 readTsX
        · rw [if_pos h1] at h
          rcases hw : writeXs.get? i0 with _ | w
          · rw [hw] at h
            exact absurd h (by simp [expect, exceptBind_error])
          · rw [hw] at h
            simp only [expect, exceptBind_ok] at h
            by_cases h2 : w = hash dimX e0 (readTsX + 1)
            · rw [if_pos h2] at h
              rcases hs : m.subtablePoly.evaluate y with _ | sub
              · rw [hs] at h
                exact absurd h (by simp [expect, exceptBind_error])
              · rw [hs] at h
                simp only [expect, exceptBind_ok] at h
                rcases hi : initYs.get? i0 with _ | iy
                · rw [hi] at h
                  exact absurd h (by simp [expect, exceptBind_error])
                · rw [hi] at h
                  simp only [expect, exceptBind_ok] at h
                  by_cases h3 : iy = hash idPolyY sub 0
                  · rw [if_pos h3] at h
                    rcases hf : finalReadYs.get? i0 with _ | fy
                    · rw [hf] at h
                      exact absurd h (by simp [expect, exceptBind_error])
                    · rw [hf] at h
                      simp only [expect, exceptBind_ok] at h
                      by_cases h4 : fy = hash idPolyY sub finalCtsY
                      · rw [if_pos h4] at h
                        rcases j with _ | j
                        · refine ⟨?_, ?_, ?_, ?_⟩
                          · rw [Nat.add_zero, hr, he, h1]
                            rfl
                          · rw [Nat.add_zero, hw, he, h2]
                            rfl
                          · show initYs.get? (i0 + 0) =
                              ((m.subtablePoly.evaluate y).map
                                (fun sub => hash idPolyY sub 0))
                            rw [Nat.add_zero, hi, hs, h3]
                            rfl
                          · show finalReadYs.get? (i0 + 0) =
                              ((m.subtablePoly.evaluate y).map
                                (fun sub => hash idPolyY sub finalCtsY))
                            rw [Nat.add_zero, hf, hs, h4]
                            rfl
                        · have hj2 : j < rest.length := by simpa using hj
                          have hrec := ih (i0 + 1) h j hj2
                          have hidx : i0 + 1 + j = i0 + (j + 1) := by omega
                          rw [hidx] at hrec
                          exact hrec
                      · rw [if_neg h4] at h
                        exact absurd h (by simp)
                  · rw [if_neg h3] at h
                    exact absurd h (by simp)
            · rw [if_neg h2] at h
              exact absurd h (by simp)
        · rw [if_neg h1] at h
          exact absurd h (by simp)

/-- C3 (amended): a failed fingerprint equality makes Chunk::verify_memories
(and hence MemoryCheckingVerifier::verify) panic on assert_eq! instead of
returning FingerprintMismatch: the only failure outcomes are a panic or
transcript exhaustion, so the error FingerprintMismatch is never returned;
and verify_memories succeeds only if every memory of the chunk passes all
four fingerprint equalities. -/
theorem C3_fingerprint_panic_corrected (c : Chunk E)
    (readXs writeXs initYs finalReadYs y : List E) (hash : E → E → E → E)
    (tr : Transcript E) :
    (∀ e : Err, c.verifyMemories readXs writeXs initYs finalReadYs y hash tr =
        .error e → e = .panicked ∨ e = .transcriptExhausted)
    ∧ (∀ (dimX readTsX finalCtsY : E) (ePolyXs : List E) (tr1 : Transcript E),
        c.verifyMemories readXs writeXs initYs finalReadYs y hash tr =
          .ok ((dimX, readTsX, finalCtsY, ePolyXs), tr1) →
        ∀ j, j < c.memory.length →
          readXs.get? j = (ePolyXs.get? j).map (fun e => hash dimX e readTsX) ∧
          writeXs.get? j = (ePolyXs.get? j).map
            (fun e => hash dimX e (readTsX + 1)) ∧
          initYs.get? j = ((idPoly y).bind (fun idY =>
            ((c.memory.get? j).bind (fun m => m.subtablePoly.evaluate y)).map
              (fun sub => hash idY sub 0))) ∧
          finalReadYs.get? j = ((idPoly y).bind (fun idY =>
            ((c.memory.get? j).bind (fun m => m.subtablePoly.evaluate y)).map
              (fun sub => hash idY sub finalCtsY)))) := by
  constructor
  · intro e h
    rw [Chunk.verifyMemories] at h
    rcases h3 : tr.readFeltsAsExts 3 with e2 | ⟨vals, tr2⟩
    · rw [h3, exceptBind_error] at h
      obtain rfl : e2 = e := by simpa using h
      exact Or.inr (readFeltsAsExts_error h3)
    · rw [h3, exceptBind_ok] at h
      dsimp only at h
      rcases vals with _ | ⟨a, _ | ⟨b, _ | ⟨c3, _ | ⟨d, rest⟩⟩⟩⟩
      · obtain rfl : Err.panicked = e := by simpa using h
        exact Or.inl rfl
      · obtain rfl : Err.panicked = e := by simpa using h
        exact Or.inl rfl
      · obtain rfl : Err.panicked = e := by simpa using h
        exact Or.inl rfl
      · dsimp only at h
        rcases h4 : tr2.readFeltsAsExts c.memory.length with e2 | ⟨eXs, tr3⟩
        · rw [h4, exceptBind_error] at h
          obtain rfl : e2 = e := by simpa using h
          exact Or.inr (readFeltsAsExts_error h4)
        · rw [h4, exceptBind_ok] at h
          dsimp only at h
          rcases h5 : idPoly y with _ | idY
          · rw [h5] at h
            obtain rfl : Err.panicked = e := by
              simpa [expect, exceptBind_error] using h
            exact Or.inl rfl
          · rw [h5] at h
            simp only [expect, exceptBind_ok] at h
            rcases h6 : checkMemories hash a b c3 idY eXs readXs writeXs
                initYs finalReadYs y c.memory 0 with e2 | u
            · rw [h6, exceptBind_error] at h
              obtain rfl : e2 = e := by simpa using h
              exact Or.inl (checkMemories_error c.memory 0 _ h6)
            · rw [h6, exceptBind_ok] at h
              exact absurd h (by simp)
      · obtain rfl : Err.panicked = e := by simpa using h
        exact Or.inl rfl
  · intro dimX readTsX finalCtsY ePolyXs tr1 h j hj
    rw [Chunk.verifyMemories] at h
    rcases h3 : tr.readFeltsAsExts 3 with e2 | ⟨vals, tr2⟩
    · rw [h3, exceptBind_error] at h
      exact absurd h (by simp)
    · rw [h3, exceptBind_ok] at h
      dsimp only at h
      rcases vals with _ | ⟨a, _ | ⟨b, _ | ⟨c3, _ | ⟨d, rest⟩⟩⟩⟩
      · exact absurd h (by simp)
      · exact absurd h (by simp)
      · exact absurd h (by simp)
      · dsimp only at h
        rcases h4 : tr2.readFeltsAsExts c.memory.length with e2 | ⟨eXs, tr3⟩
        · rw [h4, exceptBind_error] at h
          exact absurd h (by simp)
        · rw [h4, exceptBind_ok] at h
          dsimp only at h
          rcases h5 : idPoly y with _ | idY
          · rw [h5] at h
            exact absurd h (by simp [expect, exceptBind_error])
          · rw [h5] at h
            simp only [expect, exceptBind_ok] at h
            rcases h6 : checkMemories hash a b c3 idY eXs readXs writeXs
                initYs finalReadYs y c.memory 0 with e2 | u
            · rw [h6, exceptBind_error] at h
              exact absurd h (by simp)
            · rw [h6, exceptBind_ok] at h
              obtain ⟨⟨rfl, rfl, rfl, rfl⟩, rfl⟩ :
                  (a = dimX ∧ b = readTsX ∧ c3 = finalCtsY ∧ eXs = ePolyXs)
                  ∧ tr3 = tr1 := by simpa using h
              have hrec := checkMemories_ok c.memory 0 h6 j hj
              rw [Nat.zero_add] at hrec
              exact ⟨hrec.1, hrec.2.1, hrec.2.2.1, hrec.2.2.2⟩
      · exact absurd h (by simp)

/-- C3 counterexample: a full verify run in which the read fingerprint of the
single memory disagrees (leaf 1 against hash value 0) ends in a panic, not in
the error FingerprintMismatch. -/
theorem C3_counterexample :
    verifyObs (mcvC3.verify 0 0 0 tcC3) = .error .panicked
    ∧ Err.panicked ≠ Err.fingerprintMismatch := ⟨rfl, by decide⟩

/-- C3 witness: a successful verify_memories run, and the read fingerprint
equality it guarantees for the single memory. -/
theorem C3_witness :
    chunkC3w.verifyMemories [5] [5] [0] [0] [0] (fingerprintHash 0 0) tcC3w =
      .ok ((5, 0, 0, [7]), tcC3w1)
    ∧ [(5 : ℤ)].get? 0 = some (fingerprintHash 0 0 5 7 0) := by
  constructor
  · rfl
  · have h := (C3_fingerprint_panic_corrected chunkC3w [5] [5] [0] [0] [0]
      (fingerprintHash 0 0) tcC3w).2 5 0 0 [7] tcC3w1 rfl 0 (by decide)
    simpa using h.1

end GkrLasso
